import Mathlib

/-!
Verification development for NorthScrape (src/NorthScrape.py).

Shallow embedding: the pure data-cleaning functions (`DataCleaner.clean_phone`,
`DataCleaner.fix_address`), the scraper clients (`ScraperEngine.search_yp`,
`search_ddg`, `generate_yp`) with the network modelled as an explicit outcome
value, and the application pipelines (`App._process`, `App._enrich_thread`,
`App._mass_gen_thread`, `App.export`) as explicit state-passing functions.

Strings are modelled over their character lists; Python `str` operations
(`lower`, `upper`, `title`, `strip`, `split`) and the specific regular
expressions the source uses are embedded as executable character-list
functions with ASCII case semantics (all data of interest is ASCII).
-/

namespace NorthScrape

/-! ### ASCII character helpers (Python `str`/`re` semantics) -/

def isDigitC (c : Char) : Bool := '0' ≤ c ∧ c ≤ '9'

def isAlphaC (c : Char) : Bool := ('A' ≤ c ∧ c ≤ 'Z') ∨ ('a' ≤ c ∧ c ≤ 'z')

/-- Whitespace as Python `\s` / `str.strip` sees it (ASCII part). -/
def isSpaceC (c : Char) : Bool :=
  c = ' ' ∨ c = '\t' ∨ c = '\n' ∨ c = '\r' ∨ c = '\x0b' ∨ c = '\x0c'

/-- ASCII `str.lower` on one character, as an explicit table. -/
def toLowerC (c : Char) : Char :=
  match c with
  | 'A' => 'a' | 'B' => 'b' | 'C' => 'c' | 'D' => 'd' | 'E' => 'e'
  | 'F' => 'f' | 'G' => 'g' | 'H' => 'h' | 'I' => 'i' | 'J' => 'j'
  | 'K' => 'k' | 'L' => 'l' | 'M' => 'm' | 'N' => 'n' | 'O' => 'o'
  | 'P' => 'p' | 'Q' => 'q' | 'R' => 'r' | 'S' => 's' | 'T' => 't'
  | 'U' => 'u' | 'V' => 'v' | 'W' => 'w' | 'X' => 'x' | 'Y' => 'y'
  | 'Z' => 'z'
  | c => c

/-- ASCII `str.upper` on one character, as an explicit table. -/
def toUpperC (c : Char) : Char :=
  match c with
  | 'a' => 'A' | 'b' => 'B' | 'c' => 'C' | 'd' => 'D' | 'e' => 'E'
  | 'f' => 'F' | 'g' => 'G' | 'h' => 'H' | 'i' => 'I' | 'j' => 'J'
  | 'k' => 'K' | 'l' => 'L' | 'm' => 'M' | 'n' => 'N' | 'o' => 'O'
  | 'p' => 'P' | 'q' => 'Q' | 'r' => 'R' | 's' => 'S' | 't' => 'T'
  | 'u' => 'U' | 'v' => 'V' | 'w' => 'W' | 'x' => 'X' | 'y' => 'Y'
  | 'z' => 'Z'
  | c => c

def pyLowerL (l : List Char) : List Char := l.map toLowerC

def pyLower (s : String) : String := String.mk (pyLowerL s.data)

/-- Python `str.strip()` (ASCII whitespace). -/
def pyStrip (l : List Char) : List Char :=
  ((l.dropWhile isSpaceC).reverse.dropWhile isSpaceC).reverse

/-- Python `str.title()` (ASCII): a letter is uppercased unless the previous
character is a letter, in which case it is lowercased. -/
def pyTitleGo (prevAlpha : Bool) : List Char → List Char
  | [] => []
  | c :: cs =>
    (if isAlphaC c then (if prevAlpha then toLowerC c else toUpperC c) else c)
      :: pyTitleGo (isAlphaC c) cs

def pyTitle (l : List Char) : List Char := pyTitleGo false l

/-- Python `needle in haystack` on strings (contiguous substring). -/
def isSubList (needle : List Char) : List Char → Bool
  | [] => needle.isEmpty
  | h :: t => needle.isPrefixOf (h :: t) || isSubList needle t

/-! ### `DataCleaner.clean_phone` -/

def stripNonDigits (l : List Char) : List Char := l.filter isDigitC

/-- `f"({d[:3]}) {d[3:6]}-{d[6:]}"` for a 10-digit list. -/
def fmt10 (d : List Char) : List Char :=
  '(' :: d.take 3 ++ ')' :: ' ' :: (d.drop 3).take 3 ++ '-' :: d.drop 6

/-- `DataCleaner.clean_phone`: normalizes phone numbers to `(XXX) XXX-XXXX`. -/
def clean_phone (phone_str : String) : String :=
  if phone_str = "" ∨ pyLower phone_str = "n/a" then "N/A"
  else
    let digits := stripNonDigits phone_str.data
    if digits.length = 10 then String.mk (fmt10 digits)
    else if digits.length = 11 ∧ digits.head? = some '1' then
      String.mk (fmt10 (digits.drop 1))
    else "N/A"

/-- Modelled from the spec (§4.1 `normalizePhone`), for comparison with the
source's `clean_phone`: strip non-digits; 10 digits format directly; 11 with a
leading `1` drop it; anything else (including the empty / `"n/a"` inputs,
which leave no digits) is `"N/A"`. -/
def normalizePhoneSpec (s : String) : String :=
  let digits := stripNonDigits s.data
  if digits.length = 10 then String.mk (fmt10 digits)
  else if digits.length = 11 ∧ digits.head? = some '1' then
    String.mk (fmt10 (digits.drop 1))
  else "N/A"

/-! ### `DataCleaner.fix_address` -/

/-- One alternative of `(ON|On|Ontario)` under `re.IGNORECASE`, two-letter case. -/
def onCI (a b : Char) : Bool := toLowerC a = 'o' ∧ toLowerC b = 'n'

/-- `[A-Za-z]\d[A-Za-z]` on three characters. -/
def ldl (a b c : Char) : Bool := isAlphaC a ∧ isDigitC b ∧ isAlphaC c

/-- `\d[A-Za-z]\d` on three characters. -/
def dld (a b c : Char) : Bool := isDigitC a ∧ isAlphaC b ∧ isDigitC c

/-- Attempt of `(ON|On|Ontario)([A-Za-z]\d[A-Za-z])` (IGNORECASE) at the head,
`Ontario` alternative. Returns the replacement `\1 \2` and the rest. -/
def tryOntarioPostal (l : List Char) : Option (List Char × List Char) :=
  match l with
  | a :: b :: c :: d :: e :: f :: g :: p :: q :: r :: rest =>
    if pyLowerL [a, b, c, d, e, f, g] = "ontario".data ∧ ldl p q r then
      some ([a, b, c, d, e, f, g, ' ', p, q, r], rest)
    else none
  | _ => none

/-- Attempt of `(ON|On|Ontario)([A-Za-z]\d[A-Za-z])` (IGNORECASE) at the head:
the `ON` alternative is tried first, then `Ontario` (regex alternation order). -/
def tryProvPostal (l : List Char) : Option (List Char × List Char) :=
  match l with
  | a :: b :: d :: e :: f :: rest =>
    if onCI a b ∧ ldl d e f then some ([a, b, ' ', d, e, f], rest)
    else tryOntarioPostal l
  | _ => tryOntarioPostal l

/-- `re.sub(r"(ON|On|Ontario)([A-Za-z]\d[A-Za-z])", r"\1 \2", …, IGNORECASE)`:
left-to-right scan replacing non-overlapping matches. Fuel is the length of
the scanned list (each step consumes at least one character). -/
def provSpaceFix : Nat → List Char → List Char
  | 0, l => l
  | fuel + 1, l =>
    match tryProvPostal l with
    | some (m, rest) => m ++ provSpaceFix fuel rest
    | none =>
      match l with
      | [] => []
      | c :: cs => c :: provSpaceFix fuel cs

/-- Python `addr.split(",")`. -/
def splitComma : List Char → List (List Char)
  | [] => [[]]
  | ',' :: t => [] :: splitComma t
  | c :: t =>
    match splitComma t with
    | h :: r => (c :: h) :: r
    | [] => [[c]]

/-- Does `re.search(r"\s+District$", p, IGNORECASE)` succeed? The string must
end in `District` (case-insensitive) preceded by at least one whitespace. -/
def endsDistrict (l : List Char) : Bool :=
  let r := l.reverse
  decide (pyLowerL (r.take 8) = "district".data.reverse) &&
    (match r.drop 8 with
     | c :: _ => isSpaceC c
     | [] => false)

/-- `re.sub(r"\s+District$", "", p, IGNORECASE)`: remove the trailing
whitespace run together with the final `District`. -/
def stripDistrict (l : List Char) : List Char :=
  if endsDistrict l then ((l.reverse.drop 8).dropWhile isSpaceC).reverse else l

/-- Canonicalize one (already stripped, non-empty) comma segment: an exact
`on`/`ontario` match becomes `ON`, then the `District` suffix is removed. -/
def canonPart (p : List Char) : List Char :=
  let p1 :=
    if pyLowerL p = "on".data ∨ pyLowerL p = "ontario".data then "ON".data else p
  stripDistrict p1

/-- The dedup loop over segments: skip empties, canonicalize, skip segments
whose lowercase form was seen, else emit (`title()`-cased unless exactly `ON`). -/
def buildParts (seen : List (List Char)) : List (List Char) → List (List Char)
  | [] => []
  | p :: rest =>
    if p = [] then buildParts seen rest
    else
      let pc := canonPart p
      let pl := pyLowerL pc
      if pl ∈ seen then buildParts seen rest
      else (if pc = "ON".data then "ON".data else pyTitle pc)
        :: buildParts (pl :: seen) rest

/-- The uppercased `group(1) group(2)` replacement for the postal-code regex. -/
def postalGrp (a b c d e f : Char) : List Char :=
  [toUpperC a, toUpperC b, toUpperC c, ' ', toUpperC d, toUpperC e, toUpperC f]

/-- Attempt of `([A-Za-z]\d[A-Za-z])\s?(\d[A-Za-z]\d)` at the head; returns
the uppercased single-spaced replacement and the rest. -/
def tryPostal (l : List Char) : Option (List Char × List Char) :=
  match l with
  | a :: b :: c :: rest =>
    if ldl a b c then
      match rest with
      | w :: d :: e :: f :: r2 =>
        if isSpaceC w then
          if dld d e f then some (postalGrp a b c d e f, r2) else none
        else if dld w d e then some (postalGrp a b c w d e, f :: r2)
        else none
      | [d, e, f] =>
        if dld d e f then some (postalGrp a b c d e f, []) else none
      | _ => none
    else none
  | _ => none

/-- `re.sub` of the postal-code spacing pattern (global, left to right). -/
def postalFix : Nat → List Char → List Char
  | 0, l => l
  | fuel + 1, l =>
    match tryPostal l with
    | some (m, rest) => m ++ postalFix fuel rest
    | none =>
      match l with
      | [] => []
      | c :: cs => c :: postalFix fuel cs

/-- `re.search` of the postal pattern: group(1) of the first match. -/
def findPostal : List Char → Option (List Char)
  | [] => none
  | l@(_ :: t) =>
    match tryPostal l with
    | some _ => some (l.take 3)
    | none => findPostal t

/-- The `POSTAL_MAP` constant: FSA prefix to city/region. -/
def POSTAL_MAP : List (String × String) :=
  [("P0A", "Parry Sound"), ("P0B", "Muskoka"), ("P0C", "Mactier"),
   ("P0E", "Manitoulin"), ("P0G", "Parry Sound"), ("P0H", "Nipissing"),
   ("P0J", "Timiskaming"), ("P0K", "Cochrane"), ("P0L", "Hearst"),
   ("P0M", "Sudbury"), ("P0N", "Cochrane"), ("P0P", "Manitoulin"),
   ("P0R", "Algoma"), ("P0S", "Algoma"), ("P0T", "Nipigon"),
   ("P0V", "Red Lake"), ("P0W", "Rainy River"), ("P1A", "North Bay"),
   ("P1B", "North Bay"), ("P1C", "North Bay"), ("P1H", "Huntsville"),
   ("P2A", "Parry Sound"), ("P2B", "Sturgeon Falls"), ("P2N", "Kirkland Lake"),
   ("P3A", "Sudbury"), ("P3B", "Sudbury"), ("P3C", "Sudbury"),
   ("P3E", "Sudbury"), ("P3G", "Sudbury"), ("P3L", "Garson"),
   ("P3N", "Val Caron"), ("P3P", "Hanmer"), ("P3Y", "Lively"),
   ("P4N", "Timmins"), ("P4P", "Timmins"), ("P4R", "Timmins"),
   ("P5A", "Elliot Lake"), ("P5E", "Espanola"), ("P5N", "Kapuskasing"),
   ("P6A", "Sault Ste. Marie"), ("P6B", "Sault Ste. Marie"),
   ("P6C", "Sault Ste. Marie"), ("P7A", "Thunder Bay"), ("P7B", "Thunder Bay"),
   ("P7C", "Thunder Bay"), ("P7E", "Thunder Bay"), ("P8N", "Dryden"),
   ("P8T", "Sioux Lookout"), ("P9A", "Fort Frances"), ("P9N", "Kenora"),
   ("K0M", "Central Ontario")]

/-- `POSTAL_MAP.get(fsa, "Northern Ontario")`. -/
def postalLookup (fsa : String) : String :=
  match POSTAL_MAP.find? (fun kv => kv.1 = fsa) with
  | some kv => kv.2
  | none => "Northern Ontario"

/-- Does `\s*{fsa}` (IGNORECASE) match at the head? `\s*` must consume the
whole whitespace run since the FSA starts with a letter. -/
def fsaAfterWs (fsa : List Char) (l : List Char) : Bool :=
  let l1 := l.dropWhile isSpaceC
  3 ≤ l1.length ∧ pyLowerL (l1.take 3) = pyLowerL fsa

/-- Does `,\s*(ON|On|Ontario)\s*{fsa}` (IGNORECASE) match at the head? -/
def provFsaHere (fsa : List Char) : List Char → Bool
  | ',' :: rest =>
    let r1 := rest.dropWhile isSpaceC
    (match r1 with
     | a :: b :: r2 => onCI a b ∧ fsaAfterWs fsa r2
     | _ => false) ||
    (pyLowerL (r1.take 7) = "ontario".data ∧ 7 ≤ r1.length ∧
      fsaAfterWs fsa (r1.drop 7))
  | _ => false

/-- `re.search(rf",\s*(ON|On|Ontario)\s*{fsa}", addr, IGNORECASE)` as a
Boolean: does any position match? -/
def provFsaSearch (fsa : List Char) : List Char → Bool
  | [] => false
  | l@(_ :: t) => provFsaHere fsa l || provFsaSearch fsa t

/-- Attempt of `,\s*(ON|On|Ontario)` (IGNORECASE) at the head; returns the
rest after the match. The two-letter `ON` alternative is tried first and
subsumes `Ontario` (which also starts with `On`). -/
def tryProvTok (l : List Char) : Option (List Char) :=
  match l with
  | ',' :: rest =>
    match rest.dropWhile isSpaceC with
    | a :: b :: r2 => if onCI a b then some r2 else none
    | _ => none
  | _ => none

/-- `re.sub(r",\s*(ON|On|Ontario)", f", {city}, ON", addr, IGNORECASE)`:
global left-to-right replacement inserting the inferred city. -/
def insertCityScan (city : List Char) : Nat → List Char → List Char
  | 0, l => l
  | fuel + 1, l =>
    match tryProvTok l with
    | some rest =>
      (", ".data ++ city ++ ", ON".data) ++ insertCityScan city fuel rest
    | none =>
      match l with
      | [] => []
      | c :: cs => c :: insertCityScan city fuel cs

/-- The city-inference step of `fix_address` (the `postal_match` block):
look up the first postal match's FSA, require it to follow a province token,
and insert the mapped city unless it already occurs (case-insensitive
substring) in one of the deduplicated segments. -/
def inferCityStep (uparts : List (List Char)) (addr : List Char) : List Char :=
  match findPostal addr with
  | none => addr
  | some g1 =>
    let fsa := g1.map toUpperC
    if provFsaSearch fsa addr then
      let inferred_city := (postalLookup (String.mk fsa)).data
      let inferred_core := stripDistrict inferred_city
      if uparts.any (fun part => isSubList (pyLowerL inferred_core) (pyLowerL part))
      then addr
      else insertCityScan inferred_city addr.length addr
    else addr

/-- `DataCleaner.fix_address`: standardizes address strings and infers
missing cities from the postal-code FSA. -/
def fix_address (address : String) : String :=
  if address = "" ∨ address = "N/A" then "N/A"
  else
    let l0 := address.data
    let l1 := provSpaceFix l0.length l0
    let uparts := buildParts [] ((splitComma l1).map pyStrip)
    let l2 := List.intercalate ", ".data uparts
    let l3 := postalFix l2.length l2
    String.mk (inferCityStep uparts l3)

/-! ### `ScraperEngine`

The network is modelled as an explicit outcome value passed to each client:
a transport failure (`requests` raising) or a received response with the
pieces BeautifulSoup would extract from it. Every `try/except` of the source
becomes a total function of that outcome. -/

/-- Is `\s*(ON|Ontario)` (IGNORECASE) matched at the head? (`ON` alternative
subsumes `Ontario`; no trailing context is required.) -/
def onAfterComma (r : List Char) : Bool :=
  match r.dropWhile isSpaceC with
  | a :: b :: _ => onCI a b
  | _ => false

/-- `re.search(r"([^,]+),\s*(ON|Ontario)", address, IGNORECASE)`: group(1) of
the first match, i.e. the first maximal non-comma run whose terminating comma
is followed by `\s*` and a province token. -/
def locFromAddr : List Char → Option (List Char)
  | [] => none
  | l@(c :: t) =>
    if c = ',' then locFromAddr t
    else
      let run := l.takeWhile (· ≠ ',')
      match l.dropWhile (· ≠ ',') with
      | ',' :: r2 => if onAfterComma r2 then some run else locFromAddr t
      | _ => none

/-- `name.replace(' ', '+')` used when building search URLs. -/
def plusEncode (s : String) : String :=
  String.mk (s.data.map (fun c => if c = ' ' then '+' else c))

structure Contact where
  phone : String
  website : String
deriving DecidableEq, Repr

/-- What BeautifulSoup finds inside the first
`div.listing__content__wrapper`: the phone tag's text (from either of the two
phone sub-elements), and for the website: the `li.mlr__item--website` element
(present?), its `a` tag (present?), and that tag's `href` attribute. -/
structure YpListing where
  phoneText : Option String
  websiteItem : Option (Option (Option String))
deriving DecidableEq, Repr

inductive YpOutcome where
  | netError
  | response (status : Nat) (listing : Option YpListing)

/-- `urlparse(url).query`: drop the fragment (first `#`), take what follows
the first `?`. -/
def urlQuery (l : List Char) : List Char :=
  match (l.takeWhile (· ≠ '#')).dropWhile (· ≠ '?') with
  | '?' :: q => q
  | _ => []

def isHexDigit (c : Char) : Bool :=
  isDigitC c ∨ ('a' ≤ c ∧ c ≤ 'f') ∨ ('A' ≤ c ∧ c ≤ 'F')

def hexVal (c : Char) : Nat :=
  if isDigitC c then c.toNat - 48
  else if 'a' ≤ c ∧ c ≤ 'f' then c.toNat - 87
  else c.toNat - 55

/-- `urllib.parse.unquote_plus` (ASCII): `+` to space, `%hh` decoded, a `%`
not followed by two hex digits kept literally. -/
def unquotePlus : Nat → List Char → List Char
  | 0, l => l
  | _ + 1, [] => []
  | fuel + 1, '+' :: t => ' ' :: unquotePlus fuel t
  | fuel + 1, '%' :: a :: b :: t =>
    if isHexDigit a ∧ isHexDigit b then
      Char.ofNat (16 * hexVal a + hexVal b) :: unquotePlus fuel t
    else '%' :: unquotePlus fuel (a :: b :: t)
  | fuel + 1, c :: t => c :: unquotePlus fuel t

/-- Python `qs.split("&")`. -/
def splitAmp : List Char → List (List Char)
  | [] => [[]]
  | '&' :: t => [] :: splitAmp t
  | c :: t =>
    match splitAmp t with
    | h :: r => (c :: h) :: r
    | [] => [[c]]

/-- Split a query segment at its first `=`; `none` when there is no `=`. -/
def splitEqFirst (l : List Char) : Option (List Char × List Char) :=
  match l with
  | [] => none
  | '=' :: t => some ([], t)
  | c :: t =>
    match splitEqFirst t with
    | some (k, v) => some (c :: k, v)
    | none => none

/-- `parse_qs(query).get("redirect")` followed by taking the first element:
the first `&`-segment (skipping empty segments, segments without `=`, and
segments with an empty raw value, as `parse_qsl` does with default options)
whose decoded name is `redirect`, giving its decoded value. -/
def parseQsRedirect (q : List Char) : Option (List Char) :=
  go (splitAmp q)
where
  go : List (List Char) → Option (List Char)
  | [] => none
  | seg :: rest =>
    if seg = [] then go rest
    else
      match splitEqFirst seg with
      | none => go rest
      | some (k, v) =>
        if v = [] then go rest
        else if unquotePlus k.length k = "redirect".data then
          some (unquotePlus v.length v)
        else go rest

/-- The website extraction of `search_yp`: prefix the href with the YP
domain, and if the URL contains `redirect=`, unwrap the redirect query
parameter when present. -/
def ypWebsite (L : YpListing) : String :=
  match L.websiteItem with
  | none => "N/A"
  | some linkTag =>
    match linkTag with
    | none => "N/A"
    | some href? =>
      match href? with
      | none => "N/A"
      | some href =>
        if href = "" then "N/A"
        else
          let website := "https://www.yellowpages.ca" ++ href
          if isSubList "redirect=".data website.data then
            match parseQsRedirect (urlQuery website.data) with
            | some v => String.mk v
            | none => website
          else website

/-- `ScraperEngine.search_yp`: directory search for one business. `none` is
Python's `None`; every failure path (transport error, non-200 status, missing
listing block) degrades to `none` through the `try/except`. -/
def search_yp (name address : String) (o : YpOutcome) : Option Contact :=
  let loc :=
    match locFromAddr address.data with
    | some run => String.mk (pyStrip run)
    | none => "ON"
  let _url := "https://www.yellowpages.ca/search/si/1/" ++ plusEncode name
    ++ "/" ++ plusEncode loc
  match o with
  | .netError => none
  | .response status listing =>
    if status ≠ 200 then none
    else
      match listing with
      | none => none
      | some L =>
        let phone :=
          match L.phoneText with
          | some t => t
          | none => "N/A"
        some { phone := clean_phone phone, website := ypWebsite L }

/-! The DuckDuckGo phone regex
`(?:\+?1[-. ]?)?\(?([2-9][0-9]{2})\)?[-. ]?([2-9][0-9]{2})[-. ]?([0-9]{4})`. -/

def sepC (c : Char) : Bool := c = '-' ∨ c = '.' ∨ c = ' '

def d29 (c : Char) : Bool := '2' ≤ c ∧ c ≤ '9'

/-- The part after the optional `+1` prefix. The single-character optional
elements commit greedily; their character classes are disjoint from what
follows, so no backtracking is lost. -/
def phoneCore (l : List Char) : Option (List Char × List Char × List Char) :=
  let l1 := match l with | '(' :: t => t | _ => l
  match l1 with
  | a1 :: a2 :: a3 :: r1 =>
    if d29 a1 ∧ isDigitC a2 ∧ isDigitC a3 then
      let r2 := match r1 with | ')' :: t => t | _ => r1
      let r3 := match r2 with
        | c :: t => if sepC c then t else r2
        | [] => r2
      match r3 with
      | b1 :: b2 :: b3 :: r4 =>
        if d29 b1 ∧ isDigitC b2 ∧ isDigitC b3 then
          let r5 := match r4 with
            | c :: t => if sepC c then t else r4
            | [] => r4
          match r5 with
          | c1 :: c2 :: c3 :: c4 :: _ =>
            if isDigitC c1 ∧ isDigitC c2 ∧ isDigitC c3 ∧ isDigitC c4 then
              some ([a1, a2, a3], [b1, b2, b3], [c1, c2, c3, c4])
            else none
          | _ => none
        else none
      | _ => none
    else none
  | _ => none

/-- The optional `(?:\+?1[-. ]?)?` prefix: the rest after consuming it, when
its mandatory `1` is present. -/
def phonePfx (l : List Char) : Option (List Char) :=
  match l with
  | '+' :: '1' :: t =>
    some (match t with
          | c :: t2 => if sepC c then t2 else t
          | [] => t)
  | '1' :: t =>
    some (match t with
          | c :: t2 => if sepC c then t2 else t
          | [] => t)
  | _ => none

/-- Full phone-pattern attempt at one position (prefix path first, then the
prefix-empty path, as regex backtracking would). -/
def matchPhoneAt (l : List Char) : Option (List Char × List Char × List Char) :=
  match phonePfx l with
  | some rest =>
    match phoneCore rest with
    | some g => some g
    | none => phoneCore l
  | none => phoneCore l

/-- `re.findall(...)[0]` = leftmost match of the phone pattern. -/
def findFirstPhone : List Char → Option (List Char × List Char × List Char)
  | [] => none
  | l@(_ :: t) =>
    match matchPhoneAt l with
    | some g => some g
    | none => findFirstPhone t

/-- The link scan of `search_ddg`: first `result__a` href that is truthy and
mentions neither the search engine nor a directory aggregator. -/
def ddgSite : List (Option String) → String
  | [] => "N/A"
  | none :: t => ddgSite t
  | some h :: t =>
    if h ≠ "" ∧ ¬isSubList "duckduckgo".data h.data
        ∧ ¬isSubList "yelp".data h.data
        ∧ ¬isSubList "yellowpages".data h.data
        ∧ ¬isSubList "411.ca".data h.data
    then h else ddgSite t

/-- A DuckDuckGo HTML response as the source consumes it: the page's visible
text (`soup.get_text()`) and the `a.result__a` hrefs in order. -/
structure DdgPage where
  text : String
  links : List (Option String)
deriving Repr

inductive DdgOutcome where
  | netError
  | page (p : DdgPage)

/-- `ScraperEngine.search_ddg`: fallback free-text search. The `try/except`
maps a transport failure to `{phone: "N/A", website: "N/A"}`; no status check
is made on a received response. -/
def search_ddg (name address : String) (o : DdgOutcome) : Contact :=
  let city :=
    match locFromAddr address.data with
    | some run => String.mk (pyStrip run)
    | none => ""
  let _query := name ++ " " ++ city ++ " phone"
  match o with
  | .netError => { phone := "N/A", website := "N/A" }
  | .page p =>
    let phone :=
      match findFirstPhone p.text.data with
      | some (a, e, n) =>
        String.mk ('(' :: a ++ ')' :: ' ' :: e ++ '-' :: n)
      | none => "N/A"
    { phone := phone, website := ddgSite p.links }

inductive GenOutcome where
  | netError
  | response (status : Nat) (listings : List (Option String × Option String))

/-- `ScraperEngine.generate_yp`: category search returning `(Name, Address)`
pairs for every listing card having both a name link and an address span.
`raise_for_status` turns a 4xx/5xx response into the `except` path, which —
like a transport failure — returns the empty list. -/
def generate_yp (keyword location : String) (o : GenOutcome) :
    List (String × String) :=
  let _url := "https://www.yellowpages.ca/search/si/1/" ++ plusEncode keyword
    ++ "/" ++ plusEncode location
  match o with
  | .netError => []
  | .response status listings =>
    if 400 ≤ status ∧ status < 600 then []
    else
      listings.filterMap (fun nt =>
        match nt with
        | (some nm, some ad) => some (nm, ad)
        | _ => none)

/-! ### `App._process` and `App._enrich_thread` -/

/-- One CSV row as `_process` receives it: `Name`/`Address` are accessed with
`row[...]`, `Phone`/`Website` with `row.get(...)` and may be absent. -/
structure Row where
  Name : String
  Address : String
  Phone : Option String
  Website : Option String
deriving DecidableEq, Repr

def dummyRow : Row := { Name := "", Address := "", Phone := none, Website := none }

/-- The enriched tuple `(idx, name, addr, phone, website, src)` that
`_process` returns. -/
structure ProcRes where
  idx : Nat
  name : String
  addr : String
  phone : String
  website : String
  src : String
deriving DecidableEq, Repr

/-- The keep-as-is test of `_process`:
`row.get("Phone") not in ["N/A", ""] and len(row.get("Phone", "")) > 5`
(an absent phone passes the first test — `None` is in neither list — but has
length 0 and so fails the second). -/
def keepCond (row : Row) : Bool :=
  (match row.Phone with
   | some p => decide (p ≠ "N/A" ∧ p ≠ "")
   | none => true) &&
  (match row.Phone with
   | some p => decide (p.length > 5)
   | none => false)

/-- `App._process` with the two lookup outcomes supplied explicitly and, for
the invocation claim, a record of which engines were called:
`(result, called_yp, called_ddg)`. -/
def App.process (yp : YpOutcome) (ddg : DdgOutcome) (row : Row) (idx : Nat) :
    ProcRes × Bool × Bool :=
  if keepCond row then
    let clean_addr := fix_address row.Address
    ({ idx := idx, name := row.Name, addr := clean_addr,
       phone := (match row.Phone with | some p => p | none => ""),
       website := (match row.Website with | some w => w | none => "N/A"),
       src := "Keep" }, false, false)
  else
    let name := row.Name
    let addr := fix_address row.Address
    match search_yp name addr yp with
    | some d =>
      if d.phone = "N/A" then
        let d2 := search_ddg name addr ddg
        ({ idx := idx, name := name, addr := addr, phone := d2.phone,
           website := d2.website, src := "DDG" }, true, true)
      else
        ({ idx := idx, name := name, addr := addr, phone := d.phone,
           website := d.website, src := "YP" }, true, false)
    | none =>
      let d2 := search_ddg name addr ddg
      ({ idx := idx, name := name, addr := addr, phone := d2.phone,
         website := d2.website, src := "DDG" }, true, true)

/-- `App._enrich_thread` without cancellation: every submitted future
completes and is reconciled in completion order. `order` is the completion
order of the original indices, `outs` gives each task's lookup outcomes. -/
def App.enrichResults (rows : List Row) (outs : Nat → YpOutcome × DdgOutcome)
    (order : List Nat) : List ProcRes :=
  order.map (fun i => (App.process (outs i).1 (outs i).2 (rows.getD i dummyRow) i).1)

/-! ### `App._mass_gen_thread` (discovery) -/

/-- The discovery dedup key
`f"{name.lower()}|{clean_addr[:10].lower()}"` (addr already cleaned). -/
def genKey (name clean_addr : String) : String :=
  pyLower name ++ "|" ++ pyLower (String.mk (clean_addr.data.take 10))

/-- The per-combination result loop of `_mass_gen_thread`: clean each
candidate's address, compute its key, and emit it unless the key is in
`seen_gen`. Returns the grown seen-set and the emitted `(Name, clean_addr)`
pairs (the `add_gen` events), in order. -/
def dedupRun (seen : List String) :
    List (String × String) → List String × List (String × String)
  | [] => (seen, [])
  | (nm, ad) :: rest =>
    let clean_addr := fix_address ad
    let key := genKey nm clean_addr
    if key ∈ seen then dedupRun seen rest
    else
      let sr := dedupRun (key :: seen) rest
      (sr.1, (nm, clean_addr) :: sr.2)

inductive GEvent where
  | status (s : String)
  /-- Python puts `(current_task / total_tasks) * 100` (a float) on the
  queue; the event here carries the two integers it is computed from. -/
  | progress (cur tot : Nat)
  | add_gen (name addr : String)
  | done_gen (total : Nat)
deriving DecidableEq, Repr

def GEvent.isStatusOrProgress : GEvent → Bool
  | .status _ => true
  | .progress _ _ => true
  | _ => false

def statusMsg (cur tot : Nat) (cat loc : String) : String :=
  "Scanning (" ++ toString cur ++ "/" ++ toString tot ++ "): "
    ++ cat ++ " in " ++ loc ++ "..."

/-- The worker state of `_mass_gen_thread`, plus instrumentation: `checks`
counts `is_running` reads and `fetched` records the `generate_yp` calls
actually issued. -/
structure GenSt where
  checks : Nat
  current_task : Nat
  total_found : Nat
  seen_gen : List String
  events : List GEvent
  fetched : List (String × String)
deriving Repr

def GenSt.init : GenSt :=
  { checks := 0, current_task := 0, total_found := 0, seen_gen := [],
    events := [], fetched := [] }

/-- The inner `for loc in locations` loop for one category. The stop signal
is cooperative and monotone: the check numbered `t` observes running exactly
when `t < k` (the signal flips after `k` combinations). `break` leaves the
inner loop only. -/
def innerLocs (k tot : Nat) (cat : String)
    (outs : String → String → GenOutcome) (st : GenSt) :
    List String → GenSt
  | [] => st
  | loc :: rest =>
    let t := st.checks
    let st0 := { st with checks := t + 1 }
    if t < k then
      let ct := st0.current_task + 1
      let st1 := { st0 with
        current_task := ct,
        events := st0.events ++ [GEvent.status (statusMsg ct tot cat loc), GEvent.progress ct tot],
        fetched := st0.fetched ++ [(cat, loc)] }
      let res := generate_yp cat loc (outs cat loc)
      let sr := dedupRun st1.seen_gen res
      let st2 := { st1 with
        seen_gen := sr.1,
        total_found := st1.total_found + sr.2.length,
        events := st1.events ++ sr.2.map (fun na => GEvent.add_gen na.1 na.2) }
      innerLocs k tot cat outs st2 rest
    else st0

/-- `App._mass_gen_thread`: nested category × location loops followed by the
final `done_gen` event. -/
def App.massGen (k : Nat) (cats locs : List String)
    (outs : String → String → GenOutcome) : GenSt :=
  let tot := cats.length * locs.length
  let fin := cats.foldl (fun st cat => innerLocs k tot cat outs st locs) GenSt.init
  { fin with events := fin.events ++ [.done_gen fin.total_found] }

/-- The (category, location) combinations in loop order (categories outer). -/
def combos (cats locs : List String) : List (String × String) :=
  cats.flatMap (fun c => locs.map (fun l => (c, l)))

/-! ### `App.export` -/

/-- One row of the enrichment tree as `export` reads it
(`Name, Address, Phone, Website`). -/
structure RowV where
  Name : String
  Address : String
  Phone : String
  Website : String
deriving DecidableEq, Repr

/-- `f"PH:{v[2]}" if v[2] != "N/A" else f"AD:{v[1][:15]}"`. -/
def exportKey (v : RowV) : String :=
  if v.Phone ≠ "N/A" then "PH:" ++ v.Phone
  else "AD:" ++ String.mk (v.Address.data.take 15)

/-- `unique[key] = value` on a Python dict kept as an ordered association
list: an existing key keeps its position but receives the new value. -/
def upsert (k : String) (v : RowV) : List (String × RowV) → List (String × RowV)
  | [] => [(k, v)]
  | (k1, v1) :: t => if k1 = k then (k1, v) :: t else (k1, v1) :: upsert k v t

/-- The `unique` dict after the dedup loop of `export`. -/
def dedupFold (rows : List RowV) : List (String × RowV) :=
  rows.foldl (fun acc v => upsert (exportKey v) v acc) []

def assocFind (k : String) : List (String × RowV) → Option RowV
  | [] => none
  | (k1, v) :: t => if k1 = k then some v else assocFind k t

/-- Stable sorted insertion by `Name` (ties keep existing order first). -/
def insSorted (r : RowV) : List RowV → List RowV
  | [] => [r]
  | h :: t => if h.Name ≤ r.Name then h :: insSorted r t else r :: h :: t

/-- `sorted(unique.values(), key=lambda x: x["Name"])`. -/
def sortByName (l : List RowV) : List RowV := l.foldl (fun acc r => insSorted r acc) []

/-- `App.export`'s final row list: last-write-wins dedup by `exportKey`,
then sort by `Name`. -/
def App.exportRows (rows : List RowV) : List RowV :=
  sortByName ((dedupFold rows).map (fun kv => kv.2))

/-- Modelled from the spec (§4.3 export rule), for comparison: the surviving
value for key `k` is the last input row whose key is `k`. -/
def lastWithKey (k : String) (rows : List RowV) : Option RowV :=
  (rows.filter (fun r => exportKey r = k)).getLast?

/-- The status/progress events of a discovery trace (the per-combination
progress reporting, as opposed to `add_gen` results and `done_gen`). -/
def spEvents (l : List GEvent) : List GEvent := l.filter GEvent.isStatusOrProgress

/-- The status/progress events a run emits for a list of combinations, when
`start` combinations were already completed before it. -/
def spSeq (tot : Nat) : Nat → List (String × String) → List GEvent
  | _, [] => []
  | start, cl :: rest =>
    GEvent.status (statusMsg (start + 1) tot cl.1 cl.2)
      :: GEvent.progress (start + 1) tot :: spSeq tot (start + 1) rest

/-! ### Helper lemmas -/

theorem isDigit_toLowerC (c : Char) : isDigitC (toLowerC c) = isDigitC c := by
  unfold toLowerC
  split <;> rfl

theorem stripNonDigits_eq_nil_of_lower (l m : List Char)
    (hm : pyLowerL l = m) (hnd : ∀ c ∈ m, isDigitC c = false) :
    stripNonDigits l = [] := by
  unfold stripNonDigits
  rw [List.filter_eq_nil_iff]
  intro c hc
  have hmem : toLowerC c ∈ m := by
    rw [← hm]; exact List.mem_map_of_mem _ hc
  have h1 := hnd _ hmem
  rw [isDigit_toLowerC] at h1
  simp [h1]

/-! ### The claims -/

/-- C2. `clean_phone` is total (it is a Lean function `String → String`) and
agrees everywhere with the spec's digit-count case analysis
(`normalizePhoneSpec`); in particular `"1-705-555-1234"` formats to
`"(705) 555-1234"` and `"555-12"` degrades to `"N/A"`. -/
theorem clean_phone_matches_spec :
    (∀ s : String, clean_phone s = normalizePhoneSpec s) ∧
    clean_phone "1-705-555-1234" = "(705) 555-1234" ∧
    clean_phone "555-12" = "N/A" := by
  refine ⟨fun s => ?_, by decide, by decide⟩
  unfold clean_phone normalizePhoneSpec
  by_cases h : s = "" ∨ pyLower s = "n/a"
  · rw [if_pos h]
    have hnil : stripNonDigits s.data = [] := by
      rcases h with h | h
      · subst h; rfl
      · exact stripNonDigits_eq_nil_of_lower s.data "n/a".data
          (congrArg String.data h) (by decide)
    simp [hnil]
  · rw [if_neg h]

/-- C1 (counterexample). `fix_address` is not idempotent: on the spec's own
example address a second application changes the result again (the province
token that precedes the postal code is re-title-cased from `ON` to `On`). -/
theorem fix_address_not_idempotent_cex :
    fix_address (fix_address "123 Main St, ON P3B1A1") ≠
      fix_address "123 Main St, ON P3B1A1" := by decide

/-- C1 (amended). `fix_address` is not idempotent for all non-empty inputs:
on `"123 Main St, ON P3B1A1"` the first application yields
`"123 Main St, Sudbury, ON P3B 1A1"`, but the second re-title-cases the
province token inside the combined `ON P3B 1A1` segment, yielding the
different string `"123 Main St, Sudbury, On P3B 1A1"`. -/
theorem fix_address_second_pass_differs :
    fix_address "123 Main St, ON P3B1A1" = "123 Main St, Sudbury, ON P3B 1A1" ∧
    fix_address "123 Main St, Sudbury, ON P3B 1A1" =
      "123 Main St, Sudbury, On P3B 1A1" ∧
    fix_address "123 Main St, Sudbury, ON P3B 1A1" ≠
      "123 Main St, Sudbury, ON P3B 1A1" := by
  refine ⟨by decide, by decide, by decide⟩

/-- C5 (counterexample). On `"123 Main St, ON P3B1A1"` the result is not the
spec's `"123 Main St, Sudbury, ON, P3B 1A1"`: the insertion rewrite replaces
`", ON"` by `", Sudbury, ON"` and leaves the following ` P3B 1A1` attached to
the province token, so no comma precedes the postal code. -/
theorem fix_address_example_cex :
    fix_address "123 Main St, ON P3B1A1" ≠
      "123 Main St, Sudbury, ON, P3B 1A1" := by decide

/-- C5 (amended). For the input address `"123 Main St, ON P3B1A1"`,
`fix_address` returns exactly `"123 Main St, Sudbury, ON P3B 1A1"` (locality
`Sudbury` inferred from FSA `P3B` via `POSTAL_MAP`, but with no comma
inserted between the province token and the postal code). -/
theorem fix_address_example_actual :
    fix_address "123 Main St, ON P3B1A1" =
      "123 Main St, Sudbury, ON P3B 1A1" := by decide

/-- C10. In the locality-inference step, the inferred city is deemed present
— and not inserted — whenever its (district-stripped) name occurs as a
case-insensitive substring of any deduplicated segment; a segment
`"Sudbury Street"` therefore suppresses insertion of `"Sudbury"` for an
address with FSA `P3B`. -/
theorem locality_presence_substring :
    (∀ (uparts : List (List Char)) (addr g1 : List Char),
      findPostal addr = some g1 →
      uparts.any (fun part =>
        isSubList
          (pyLowerL (stripDistrict (postalLookup (String.mk (g1.map toUpperC))).data))
          (pyLowerL part)) = true →
      inferCityStep uparts addr = addr) ∧
    fix_address "123 Main St, Sudbury Street, ON P3B1A1" =
      "123 Main St, Sudbury Street, On P3B 1A1" := by
  constructor
  · intro uparts addr g1 hf hany
    unfold inferCityStep
    rw [hf]
    by_cases hp : provFsaSearch (g1.map toUpperC) addr = true
    · simp only [hp, if_true, hany, if_true]
    · simp only [Bool.not_eq_true] at hp
      simp [hp]
  · decide

/-- Witness for C10 at a concrete address-and-segments pair. -/
theorem locality_presence_substring_witness :
    inferCityStep ["Sudbury Street".data] ", ON P3B 1A1".data = ", ON P3B 1A1".data :=
  locality_presence_substring.1 ["Sudbury Street".data] ", ON P3B 1A1".data
    "P3B".data (by decide) (by decide)

/-- C3. Per-record enrichment strategy of `_process`: a record passing the
keep test retains its phone/website verbatim with source `Keep` and invokes
neither lookup (the address still being normalized); otherwise YellowPages is
called first and its result used with source `YP` exactly when it is not
`None` and its phone is not `"N/A"`; in every other case DuckDuckGo is called
and its result used unconditionally with source `DDG`. -/
theorem process_strategy :
    ∀ (row : Row) (idx : Nat) (yp : YpOutcome) (ddg : DdgOutcome),
      (keepCond row = true →
        App.process yp ddg row idx =
          ({ idx := idx, name := row.Name, addr := fix_address row.Address,
             phone := (match row.Phone with | some p => p | none => ""),
             website := (match row.Website with | some w => w | none => "N/A"),
             src := "Keep" }, false, false)) ∧
      (keepCond row = false →
        (∀ d, search_yp row.Name (fix_address row.Address) yp = some d →
          d.phone ≠ "N/A" →
          App.process yp ddg row idx =
            ({ idx := idx, name := row.Name, addr := fix_address row.Address,
               phone := d.phone, website := d.website, src := "YP" },
             true, false)) ∧
        ((search_yp row.Name (fix_address row.Address) yp = none ∨
            (∃ d, search_yp row.Name (fix_address row.Address) yp = some d ∧
              d.phone = "N/A")) →
          App.process yp ddg row idx =
            ({ idx := idx, name := row.Name, addr := fix_address row.Address,
               phone := (search_ddg row.Name (fix_address row.Address) ddg).phone,
               website := (search_ddg row.Name (fix_address row.Address) ddg).website,
               src := "DDG" }, true, true))) := by
  intro row idx yp ddg
  refine ⟨fun hk => ?_, fun hk => ⟨fun d hd hphone => ?_, fun hfb => ?_⟩⟩
  · unfold App.process
    rw [hk]
    rfl
  · unfold App.process
    rw [hk]
    simp only [Bool.false_eq_true, if_false, hd]
    rw [if_neg hphone]
  · unfold App.process
    rw [hk]
    simp only [Bool.false_eq_true, if_false]
    rcases hfb with h | ⟨d, hd, hphone⟩
    · rw [h]
    · rw [hd]
      simp only [hphone, if_true]

/-- Witness for C3: a row that already holds a long phone is kept verbatim
with neither engine invoked. -/
theorem process_strategy_witness :
    App.process YpOutcome.netError DdgOutcome.netError
      { Name := "Pine Variety Store", Address := "N/A",
        Phone := some "123-4567", Website := none } 3 =
      ({ idx := 3, name := "Pine Variety Store", addr := "N/A",
         phone := "123-4567", website := "N/A", src := "Keep" },
       false, false) := by
  have h := (process_strategy
    { Name := "Pine Variety Store", Address := "N/A",
      Phone := some "123-4567", Website := none } 3
    YpOutcome.netError DdgOutcome.netError).1 (by decide)
  exact h.trans (by decide)

/-- C4. No transport or parse failure escapes a lookup client: a transport
error, a non-200 status, or a missing listing block makes `search_yp` return
`none`; a transport error — or a page with no phone pattern and no qualifying
link — makes `search_ddg` return the all-absent `{phone, website: "N/A"}`;
a transport error or a 4xx/5xx status makes `generate_yp` return `[]`. All
three are total Lean functions: no outcome raises. -/
theorem lookup_failures_degrade :
    ∀ (name address keyword location : String),
      search_yp name address YpOutcome.netError = none ∧
      (∀ status listing, status ≠ 200 →
        search_yp name address (YpOutcome.response status listing) = none) ∧
      (∀ status, search_yp name address (YpOutcome.response status none) = none) ∧
      search_ddg name address DdgOutcome.netError =
        { phone := "N/A", website := "N/A" } ∧
      (∀ p : DdgPage, findFirstPhone p.text.data = none →
        ddgSite p.links = "N/A" →
        search_ddg name address (DdgOutcome.page p) =
          { phone := "N/A", website := "N/A" }) ∧
      generate_yp keyword location GenOutcome.netError = [] ∧
      (∀ status listings, 400 ≤ status → status < 600 →
        generate_yp keyword location (GenOutcome.response status listings) = []) := by
  intro name address keyword location
  refine ⟨rfl, fun status listing hs => by simp [search_yp, hs],
    fun status => ?_, rfl,
    fun p hphone hsite => by simp [search_ddg, hphone, hsite],
    rfl, fun status listings h4 h6 => by simp [generate_yp, h4, h6]⟩
  by_cases hs : status = 200
  · simp [search_yp, hs]
  · simp [search_yp, hs]

/-- Witness for C4 at concrete failing outcomes. -/
theorem lookup_failures_degrade_witness :
    search_yp "Acme" "1 A St, Sudbury, ON" (YpOutcome.response 503 none) = none ∧
    search_ddg "Acme" "1 A St, Sudbury, ON"
        (DdgOutcome.page { text := "no results", links := [some "https://www.yelp.ca/x"] }) =
      { phone := "N/A", website := "N/A" } ∧
    generate_yp "Gift Shops" "Timmins, ON" (GenOutcome.response 404 []) = [] := by
  refine ⟨(lookup_failures_degrade "Acme" "1 A St, Sudbury, ON" "" "").2.1
      503 none (by decide),
    (lookup_failures_degrade "Acme" "1 A St, Sudbury, ON" "" "").2.2.2.2.1
      { text := "no results", links := [some "https://www.yelp.ca/x"] }
      (by decide) (by decide),
    (lookup_failures_degrade "" "" "Gift Shops" "Timmins, ON").2.2.2.2.2.2
      404 [] (by decide) (by decide)⟩

/-! Lemmas about the discovery dedup loop. -/

/-- After a run, the seen set is exactly the emitted keys (newest first)
on top of the initial seen set. -/
theorem dedupRun_seen_eq (cs : List (String × String)) :
    ∀ seen : List String,
      (dedupRun seen cs).1 =
        ((dedupRun seen cs).2.map (fun na => genKey na.1 na.2)).reverse ++ seen := by
  induction cs with
  | nil => intro seen; simp [dedupRun]
  | cons c rest ih =>
    intro seen
    obtain ⟨nm, ad⟩ := c
    by_cases hmem : genKey nm (fix_address ad) ∈ seen
    · simp only [dedupRun, hmem, if_true]
      exact ih seen
    · simp only [dedupRun, hmem, if_false, List.map_cons, List.reverse_cons,
        List.append_assoc, List.cons_append, List.nil_append]
      exact ih (genKey nm (fix_address ad) :: seen)

/-- Every emitted candidate's key was fresh relative to the initial seen set. -/
theorem dedupRun_emitted_fresh (cs : List (String × String)) :
    ∀ (seen : List String) (na : String × String), na ∈ (dedupRun seen cs).2 →
      genKey na.1 na.2 ∉ seen := by
  induction cs with
  | nil => intro seen na h; simp [dedupRun] at h
  | cons c rest ih =>
    intro seen na h
    obtain ⟨nm, ad⟩ := c
    by_cases hmem : genKey nm (fix_address ad) ∈ seen
    · simp only [dedupRun, hmem, if_true] at h
      exact ih seen na h
    · simp only [dedupRun, hmem, if_false, List.mem_cons] at h
      rcases h with h | h
      · subst h; exact hmem
      · intro habs
        exact ih _ na h (List.mem_cons_of_mem _ habs)

/-- The emitted keys of one run are pairwise distinct. -/
theorem dedupRun_keys_nodup (cs : List (String × String)) :
    ∀ seen : List String,
      ((dedupRun seen cs).2.map (fun na => genKey na.1 na.2)).Nodup := by
  induction cs with
  | nil => intro seen; simp [dedupRun]
  | cons c rest ih =>
    intro seen
    obtain ⟨nm, ad⟩ := c
    by_cases hmem : genKey nm (fix_address ad) ∈ seen
    · simp only [dedupRun, hmem, if_true]
      exact ih seen
    · simp only [dedupRun, hmem, if_false, List.map_cons, List.nodup_cons]
      refine ⟨fun habs => ?_, ih _⟩
      obtain ⟨na, hna, hkey⟩ := List.mem_map.mp habs
      have := dedupRun_emitted_fresh rest _ na hna
      rw [hkey] at this
      exact this (List.mem_cons_self _ _)

/-- The seen set is monotone: keys are never removed during a run. -/
theorem dedupRun_seen_mono (cs : List (String × String)) (seen : List String) :
    ∀ x ∈ seen, x ∈ (dedupRun seen cs).1 := by
  intro x hx
  rw [dedupRun_seen_eq]
  exact List.mem_append_right _ hx

/-- After the run, every candidate's key is in the seen set. -/
theorem dedupRun_key_present (cs : List (String × String)) :
    ∀ (seen : List String) (nm ad : String), (nm, ad) ∈ cs →
      genKey nm (fix_address ad) ∈ (dedupRun seen cs).1 := by
  induction cs with
  | nil => intro seen nm ad h; simp at h
  | cons hd rest ih =>
    intro seen nm ad h
    obtain ⟨nm0, ad0⟩ := hd
    rcases List.mem_cons.mp h with heq | h
    · injection heq with h1 h2
      subst h1; subst h2
      by_cases hmem : genKey nm (fix_address ad) ∈ seen
      · simp only [dedupRun, hmem, if_true]
        exact dedupRun_seen_mono rest seen _ hmem
      · simp only [dedupRun, hmem, if_false]
        exact dedupRun_seen_mono rest _ _ (List.mem_cons_self _ _)
    · by_cases hmem : genKey nm0 (fix_address ad0) ∈ seen
      · simp only [dedupRun, hmem, if_true]
        exact ih seen nm ad h
      · simp only [dedupRun, hmem, if_false]
        exact ih _ nm ad h

/-- A candidate whose key is fresh gets (some) emission with that key. -/
theorem dedupRun_fresh_emitted (cs : List (String × String)) :
    ∀ (seen : List String) (nm ad : String), (nm, ad) ∈ cs →
      genKey nm (fix_address ad) ∉ seen →
      ∃ na ∈ (dedupRun seen cs).2,
        genKey na.1 na.2 = genKey nm (fix_address ad) := by
  induction cs with
  | nil => intro seen nm ad h; simp at h
  | cons hd rest ih =>
    intro seen nm ad h hfresh
    obtain ⟨nm0, ad0⟩ := hd
    rcases List.mem_cons.mp h with heq | h
    · injection heq with h1 h2
      subst h1; subst h2
      simp only [dedupRun, hfresh, if_false]
      exact ⟨(nm, fix_address ad), List.mem_cons_self _ _, rfl⟩
    · by_cases hmem : genKey nm0 (fix_address ad0) ∈ seen
      · simp only [dedupRun, hmem, if_true]
        exact ih seen nm ad h hfresh
      · simp only [dedupRun, hmem, if_false]
        by_cases heq : genKey nm (fix_address ad) = genKey nm0 (fix_address ad0)
        · exact ⟨(nm0, fix_address ad0), List.mem_cons_self _ _, heq.symm⟩
        · obtain ⟨na, hna, hkey⟩ := ih (genKey nm0 (fix_address ad0) :: seen) nm ad h
            (by simp [heq, hfresh])
          exact ⟨na, List.mem_cons_of_mem _ hna, hkey⟩

/-- C6. Discovery deduplication: within one run a candidate is emitted
exactly when its key (lowercased name, `|`, lowercased first 10 characters
of the cleaned address) is fresh — emitted keys are pairwise distinct, a
fresh key is always emitted, every candidate's key ends up in the seen set,
and the seen set only grows; the two Acme Store variants collapse to a
single emitted candidate. -/
theorem discovery_dedup :
    (∀ (seen : List String) (cs : List (String × String)),
      ((dedupRun seen cs).2.map (fun na => genKey na.1 na.2)).Nodup ∧
      (∀ na ∈ (dedupRun seen cs).2, genKey na.1 na.2 ∉ seen) ∧
      (∀ x ∈ seen, x ∈ (dedupRun seen cs).1) ∧
      (∀ nm ad, (nm, ad) ∈ cs →
        genKey nm (fix_address ad) ∈ (dedupRun seen cs).1) ∧
      (∀ nm ad, (nm, ad) ∈ cs → genKey nm (fix_address ad) ∉ seen →
        ∃ na ∈ (dedupRun seen cs).2,
          genKey na.1 na.2 = genKey nm (fix_address ad))) ∧
    (dedupRun [] [("Acme Store", "12 Oak Ave, Timmins, ON"),
        ("ACME STORE", "12 Oak Avenue, Timmins, ON")]).2 =
      [("Acme Store", "12 Oak Ave, Timmins, ON")] := by
  refine ⟨fun seen cs => ⟨dedupRun_keys_nodup cs seen,
    fun na => dedupRun_emitted_fresh cs seen na,
    fun x => dedupRun_seen_mono cs seen x,
    fun nm ad => dedupRun_key_present cs seen nm ad,
    fun nm ad => dedupRun_fresh_emitted cs seen nm ad⟩, by decide⟩

/-- Witness for C6: the first Acme candidate's key lands in the seen set. -/
theorem discovery_dedup_witness :
    genKey "Acme Store" (fix_address "12 Oak Ave, Timmins, ON") ∈
      (dedupRun [] [("Acme Store", "12 Oak Ave, Timmins, ON")]).1 :=
  (discovery_dedup.1 [] [("Acme Store", "12 Oak Ave, Timmins, ON")]).2.2.2.1
    "Acme Store" "12 Oak Ave, Timmins, ON" (by decide)

/-! Lemmas about the export dedup dict and sorting. -/

theorem assocFind_upsert (k k1 : String) (v : RowV) (l : List (String × RowV)) :
    assocFind k (upsert k1 v l) =
      if k = k1 then some v else assocFind k l := by
  induction l with
  | nil =>
    by_cases h : k = k1
    · simp [upsert, assocFind, h]
    · have h1 : ¬k1 = k := fun he => h he.symm
      simp [upsert, assocFind, h, h1]
  | cons hd t ih =>
    obtain ⟨k2, v2⟩ := hd
    by_cases h2 : k2 = k1
    · subst h2
      by_cases h : k = k2
      · simp [upsert, assocFind, h]
      · have h1 : ¬k2 = k := fun he => h he.symm
        simp [upsert, assocFind, h, h1]
    · by_cases h : k2 = k
      · have h1 : ¬k = k1 := fun he => h2 (h.trans he)
        simp [upsert, assocFind, h2, h, h1]
      · simp [upsert, assocFind, h2, h, ih]

theorem mem_keys_upsert (a k : String) (v : RowV) (l : List (String × RowV)) :
    a ∈ (upsert k v l).map Prod.fst ↔ a = k ∨ a ∈ l.map Prod.fst := by
  induction l with
  | nil => simp [upsert]
  | cons hd t ih =>
    obtain ⟨k2, v2⟩ := hd
    by_cases h2 : k2 = k
    · subst h2
      simp [upsert]
    · simp [upsert, h2, ih]
      tauto

theorem upsert_keys_nodup (k : String) (v : RowV) (l : List (String × RowV))
    (h : (l.map Prod.fst).Nodup) : ((upsert k v l).map Prod.fst).Nodup := by
  induction l with
  | nil => simp [upsert]
  | cons hd t ih =>
    obtain ⟨k2, v2⟩ := hd
    simp only [List.map_cons, List.nodup_cons] at h
    by_cases h2 : k2 = k
    · subst h2
      simpa [upsert] using h
    · simp only [upsert, h2, if_false, List.map_cons, List.nodup_cons]
      refine ⟨fun habs => ?_, ih h.2⟩
      rcases (mem_keys_upsert k2 k v t).mp habs with he | he
      · exact h2 he
      · exact h.1 he

theorem dedupFold_concat (rows : List RowV) (r : RowV) :
    dedupFold (rows ++ [r]) = upsert (exportKey r) r (dedupFold rows) := by
  unfold dedupFold
  rw [List.foldl_append]
  rfl

theorem dedupFold_keys_nodup (rows : List RowV) :
    ((dedupFold rows).map Prod.fst).Nodup := by
  induction rows using List.reverseRecOn with
  | nil => simp [dedupFold]
  | append_singleton rows r ih =>
    rw [dedupFold_concat]
    exact upsert_keys_nodup _ _ _ ih

/-- The dict lookup after the export dedup loop is the last input row with
that key (the spec's last-write-wins rule). -/
theorem assocFind_dedupFold (rows : List RowV) (k : String) :
    assocFind k (dedupFold rows) = lastWithKey k rows := by
  induction rows using List.reverseRecOn with
  | nil => simp [dedupFold, assocFind, lastWithKey]
  | append_singleton rows r ih =>
    rw [dedupFold_concat, assocFind_upsert]
    unfold lastWithKey
    rw [List.filter_append]
    by_cases h : k = exportKey r
    · rw [if_pos h]
      have hf : (List.filter (fun x => decide (exportKey x = k)) [r]) = [r] := by
        simp [h]
      rw [hf, List.getLast?_concat]
    · rw [if_neg h]
      have h1 : ¬exportKey r = k := fun he => h he.symm
      have hf : (List.filter (fun x => decide (exportKey x = k)) [r]) = [] := by
        simp [h1]
      rw [hf, List.append_nil, ih]
      rfl

theorem mem_insSorted (a r : RowV) (l : List RowV) :
    a ∈ insSorted r l ↔ a = r ∨ a ∈ l := by
  induction l with
  | nil => simp [insSorted]
  | cons h t ih =>
    by_cases hle : h.Name ≤ r.Name
    · simp [insSorted, hle, ih]
      tauto
    · simp [insSorted, hle]

theorem pairwise_insSorted (r : RowV) (l : List RowV)
    (h : l.Pairwise (fun a b => a.Name ≤ b.Name)) :
    (insSorted r l).Pairwise (fun a b => a.Name ≤ b.Name) := by
  induction l with
  | nil => simp [insSorted]
  | cons hd t ih =>
    rw [List.pairwise_cons] at h
    by_cases hle : hd.Name ≤ r.Name
    · simp only [insSorted, hle, if_true, List.pairwise_cons]
      refine ⟨fun a ha => ?_, ih h.2⟩
      rcases (mem_insSorted a r t).mp ha with he | he
      · exact he ▸ hle
      · exact h.1 a he
    · simp only [insSorted, hle, if_false, List.pairwise_cons]
      have hr : r.Name ≤ hd.Name := le_of_not_le hle
      refine ⟨fun a ha => ?_, h⟩
      rcases List.mem_cons.mp ha with he | he
      · exact he ▸ hr
      · exact le_trans hr (h.1 a he)

theorem insSorted_perm (r : RowV) (l : List RowV) :
    (insSorted r l).Perm (r :: l) := by
  induction l with
  | nil => simp [insSorted]
  | cons hd t ih =>
    by_cases hle : hd.Name ≤ r.Name
    · simp only [insSorted, hle, if_true]
      exact (ih.cons hd).trans (List.Perm.swap r hd t)
    · simp [insSorted, hle]

theorem sortByName_pairwise (l : List RowV) :
    (sortByName l).Pairwise (fun a b => a.Name ≤ b.Name) := by
  suffices h : ∀ acc : List RowV, acc.Pairwise (fun a b => a.Name ≤ b.Name) →
      (l.foldl (fun acc r => insSorted r acc) acc).Pairwise
        (fun a b => a.Name ≤ b.Name) from h [] (by simp)
  induction l with
  | nil => intro acc hacc; simpa using hacc
  | cons hd t ih =>
    intro acc hacc
    exact ih _ (pairwise_insSorted hd acc hacc)

theorem sortByName_perm (l : List RowV) : (sortByName l).Perm l := by
  suffices h : ∀ acc : List RowV,
      (l.foldl (fun acc r => insSorted r acc) acc).Perm (acc ++ l) by
    simpa using h []
  induction l with
  | nil => intro acc; simp
  | cons hd t ih =>
    intro acc
    refine (ih (insSorted hd acc)).trans ?_
    refine (List.Perm.append_right t ((insSorted_perm hd acc))).trans ?_
    exact List.perm_middle.symm

/-- C7. Export-time final dedup: keys are `PH:` + phone when the phone is
usable, else `AD:` + the first 15 characters of the address; among colliding
keys the last record in input order supplies all four fields (dict lookup =
`lastWithKey`); the final rows are the deduplicated values sorted by `Name`;
two records sharing a phone collapse to one output row. -/
theorem export_dedup_sorted :
    (∀ rows : List RowV,
      (App.exportRows rows).Pairwise (fun a b => a.Name ≤ b.Name) ∧
      (App.exportRows rows).Perm ((dedupFold rows).map (fun kv => kv.2)) ∧
      ((dedupFold rows).map Prod.fst).Nodup ∧
      (∀ k, assocFind k (dedupFold rows) = lastWithKey k rows)) ∧
    (∀ v : RowV, exportKey v =
      (if v.Phone ≠ "N/A" then "PH:" ++ v.Phone
       else "AD:" ++ String.mk (v.Address.data.take 15))) ∧
    App.exportRows
      [{ Name := "B Shop", Address := "1 X St", Phone := "(705) 555-1234",
         Website := "N/A" },
       { Name := "A Shop", Address := "2 Y St", Phone := "(705) 555-1234",
         Website := "w" }] =
      [{ Name := "A Shop", Address := "2 Y St", Phone := "(705) 555-1234",
         Website := "w" }] := by
  refine ⟨fun rows => ⟨sortByName_pairwise _, sortByName_perm _,
    dedupFold_keys_nodup rows, fun k => assocFind_dedupFold rows k⟩,
    fun v => rfl, by decide⟩

/-- C8 helper: `_process` always copies its input index into the result. -/
theorem process_idx (yp : YpOutcome) (ddg : DdgOutcome) (row : Row) (idx : Nat) :
    (App.process yp ddg row idx).1.idx = idx := by
  unfold App.process
  by_cases h : keepCond row = true
  · simp [h]
  · rw [if_neg h]
    cases hyp : search_yp row.Name (fix_address row.Address) yp with
    | none => simp [hyp]
    | some d => by_cases hp : d.phone = "N/A" <;> simp [hyp, hp]

/-- C8. Enrichment completeness and index preservation: a run without
cancellation and without per-row failure produces exactly one result per
input record; as a multiset the results equal the per-index results, and the
reported indices are exactly the completion order — so each result carries
the original input index of the record it came from, for every completion
order. -/
theorem enrich_complete_indexed :
    ∀ (rows : List Row) (outs : Nat → YpOutcome × DdgOutcome) (order : List Nat),
      order.Perm (List.range rows.length) →
      (App.enrichResults rows outs order).length = rows.length ∧
      (App.enrichResults rows outs order).map (fun r => r.idx) = order ∧
      (App.enrichResults rows outs order).Perm
        ((List.range rows.length).map
          (fun i => (App.process (outs i).1 (outs i).2 (rows.getD i dummyRow) i).1)) := by
  intro rows outs order hperm
  refine ⟨?_, ?_, ?_⟩
  · unfold App.enrichResults
    rw [List.length_map, hperm.length_eq, List.length_range]
  · unfold App.enrichResults
    rw [List.map_map]
    have : ∀ i : Nat,
        ((App.process (outs i).1 (outs i).2 (rows.getD i dummyRow) i).1).idx = i :=
      fun i => process_idx _ _ _ _
    calc order.map _ = order.map id := List.map_congr_left (fun i _ => this i)
    _ = order := List.map_id order
  · exact hperm.map _

/-- Witness for C8 at a two-row input completed out of order. -/
theorem enrich_complete_indexed_witness :
    (App.enrichResults
      [{ Name := "A", Address := "N/A", Phone := some "123-4567", Website := none },
       { Name := "B", Address := "N/A", Phone := some "765-4321", Website := none }]
      (fun _ => (YpOutcome.netError, DdgOutcome.netError)) [1, 0]).map
        (fun r => r.idx) = [1, 0] :=
  (enrich_complete_indexed
    [{ Name := "A", Address := "N/A", Phone := some "123-4567", Website := none },
     { Name := "B", Address := "N/A", Phone := some "765-4321", Website := none }]
    (fun _ => (YpOutcome.netError, DdgOutcome.netError)) [1, 0] (by decide)).2.1

/-! Lemmas about the discovery thread's cancellation behaviour. -/

theorem spSeq_append (tot : Nat) (A B : List (String × String)) :
    ∀ start, spSeq tot start (A ++ B) =
      spSeq tot start A ++ spSeq tot (start + A.length) B := by
  induction A with
  | nil => intro start; simp [spSeq]
  | cons hd t ih =>
    intro start
    simp only [List.cons_append, spSeq, List.length_cons, List.append_eq]
    rw [ih (start + 1)]
    rw [show start + 1 + t.length = start + (t.length + 1) by omega]

theorem spSeq_length (tot : Nat) (cs : List (String × String)) :
    ∀ start, (spSeq tot start cs).length = 2 * cs.length := by
  induction cs with
  | nil => intro start; simp [spSeq]
  | cons hd t ih =>
    intro start
    simp [spSeq, ih (start + 1)]
    omega

theorem spEvents_append (a b : List GEvent) :
    spEvents (a ++ b) = spEvents a ++ spEvents b := by
  simp [spEvents, List.filter_append]

theorem spEvents_addGens (es : List (String × String)) :
    spEvents (es.map (fun na => GEvent.add_gen na.1 na.2)) = [] := by
  induction es with
  | nil => rfl
  | cons hd t ih =>
    simp only [List.map_cons, spEvents, List.filter_cons,
      GEvent.isStatusOrProgress]
    simpa [spEvents] using ih

theorem combos_length (cats locs : List String) :
    (combos cats locs).length = cats.length * locs.length := by
  induction cats with
  | nil => simp [combos]
  | cons c rest ih =>
    simp only [combos, List.flatMap_cons, List.length_append, List.length_map,
      List.length_cons]
    rw [show combos rest locs = rest.flatMap (fun c => locs.map (fun l => (c, l)))
      from rfl] at ih
    rw [ih, Nat.succ_mul]
    omega

/-- The loop invariant of the inner location loop: starting from a state in
which either the run is live (`checks` = combos completed ≤ `k`) or the stop
signal has been observed (`k ≤ checks`, `current_task` pinned at `k`), the
loop fetches exactly the first `k - current_task` of its combinations, emits
exactly their status/progress pairs, and re-establishes the invariant. -/
theorem innerLocs_invariant (k tot : Nat) (cat : String)
    (outs : String → String → GenOutcome) (locs : List String) :
    ∀ st : GenSt,
      ((st.checks = st.current_task ∧ st.current_task ≤ k) ∨
        (k ≤ st.checks ∧ st.current_task = k)) →
      (innerLocs k tot cat outs st locs).fetched = st.fetched ++
        (locs.map (fun l => (cat, l))).take (k - st.current_task) ∧
      spEvents (innerLocs k tot cat outs st locs).events =
        spEvents st.events ++ spSeq tot st.current_task
          ((locs.map (fun l => (cat, l))).take (k - st.current_task)) ∧
      (innerLocs k tot cat outs st locs).current_task =
        min (st.current_task + locs.length) k ∧
      (((innerLocs k tot cat outs st locs).checks =
          (innerLocs k tot cat outs st locs).current_task ∧
        (innerLocs k tot cat outs st locs).current_task ≤ k) ∨
        (k ≤ (innerLocs k tot cat outs st locs).checks ∧
         (innerLocs k tot cat outs st locs).current_task = k)) := by
  induction locs with
  | nil =>
    intro st hInv
    refine ⟨by simp [innerLocs], by simp [innerLocs, spSeq], ?_, hInv⟩
    rcases hInv with ⟨_, h⟩ | ⟨_, h⟩ <;> simp [innerLocs] <;> omega
  | cons loc rest ih =>
    intro st hInv
    have hct_le : st.current_task ≤ k := by
      rcases hInv with ⟨_, h⟩ | ⟨_, h⟩ <;> omega
    by_cases hcheck : st.checks < k
    · -- the check observes the running signal: this combination is processed
      have hc : st.checks = st.current_task := by
        rcases hInv with ⟨h, _⟩ | ⟨h, _⟩ <;> omega
      have hlt : st.current_task < k := by omega
      simp only [innerLocs, hcheck, if_true]
      set st2 : GenSt :=
        { checks := st.checks + 1,
          current_task := st.current_task + 1,
          total_found := st.total_found +
            (dedupRun st.seen_gen (generate_yp cat loc (outs cat loc))).2.length,
          seen_gen := (dedupRun st.seen_gen (generate_yp cat loc (outs cat loc))).1,
          events := (st.events ++
            [GEvent.status (statusMsg (st.current_task + 1) tot cat loc),
             GEvent.progress (st.current_task + 1) tot]) ++
            ((dedupRun st.seen_gen (generate_yp cat loc (outs cat loc))).2.map
              (fun na => GEvent.add_gen na.1 na.2)),
          fetched := st.fetched ++ [(cat, loc)] } with hst2
      have hInv2 : (st2.checks = st2.current_task ∧ st2.current_task ≤ k) ∨
          (k ≤ st2.checks ∧ st2.current_task = k) := by
        left
        constructor
        · simp [hst2, hc]
        · simp [hst2]; omega
      obtain ⟨hf, he, hct, hi⟩ := ih st2 hInv2
      have htake : (k - st.current_task) = (k - st2.current_task) + 1 := by
        simp only [hst2]; omega
      refine ⟨?_, ?_, ?_, hi⟩
      · rw [hf]
        simp only [hst2, List.map_cons, htake, List.take_succ_cons,
          List.append_assoc, List.cons_append, List.nil_append]
      · rw [he]
        simp only [hst2, spEvents_append, spEvents_addGens, List.append_nil,
          List.map_cons, htake, List.take_succ_cons]
        have hsp : spEvents [GEvent.status (statusMsg (st.current_task + 1) tot cat loc),
            GEvent.progress (st.current_task + 1) tot] =
            [GEvent.status (statusMsg (st.current_task + 1) tot cat loc),
             GEvent.progress (st.current_task + 1) tot] := rfl
        rw [hsp]
        simp only [spSeq, List.append_assoc, List.cons_append, List.nil_append]
      · rw [hct]
        simp only [hst2, List.length_cons]
        omega
    · -- the check observes the stop signal: break out of the inner loop
      have hctk : st.current_task = k := by
        rcases hInv with ⟨h1, h2⟩ | ⟨h1, h2⟩ <;> omega
      simp only [innerLocs, hcheck, if_false]
      refine ⟨by simp [hctk], by simp [hctk, spSeq], ?_, ?_⟩
      · show st.current_task = min (st.current_task + (loc :: rest).length) k
        omega
      · right
        refine ⟨?_, hctk⟩
        show k ≤ st.checks + 1
        omega

/-- The invariant extended over the outer category loop. -/
theorem massGenFold_invariant (k tot : Nat) (locs : List String)
    (outs : String → String → GenOutcome) (cats : List String) :
    ∀ st : GenSt,
      ((st.checks = st.current_task ∧ st.current_task ≤ k) ∨
        (k ≤ st.checks ∧ st.current_task = k)) →
      (cats.foldl (fun s cat => innerLocs k tot cat outs s locs) st).fetched =
        st.fetched ++ (combos cats locs).take (k - st.current_task) ∧
      spEvents (cats.foldl (fun s cat => innerLocs k tot cat outs s locs) st).events =
        spEvents st.events ++ spSeq tot st.current_task
          ((combos cats locs).take (k - st.current_task)) ∧
      (cats.foldl (fun s cat => innerLocs k tot cat outs s locs) st).current_task =
        min (st.current_task + cats.length * locs.length) k := by
  induction cats with
  | nil =>
    intro st hInv
    refine ⟨by simp [combos], by simp [combos, spSeq], ?_⟩
    simp only [List.foldl_nil, List.length_nil, Nat.zero_mul, Nat.add_zero]
    omega
  | cons cat rest ih =>
    intro st hInv
    have hct_le : st.current_task ≤ k := by
      rcases hInv with ⟨_, h⟩ | ⟨_, h⟩ <;> omega
    obtain ⟨hf1, he1, hct1, hi1⟩ := innerLocs_invariant k tot cat outs locs st hInv
    set st1 := innerLocs k tot cat outs st locs with hst1
    obtain ⟨hf2, he2, hct2⟩ := ih st1 hi1
    have hsub : k - st1.current_task =
        (k - st.current_task) - locs.length := by
      rw [hct1]; omega
    have hmin : st.current_task + min (k - st.current_task) locs.length =
        st1.current_task := by
      rw [hct1]; omega
    refine ⟨?_, ?_, ?_⟩
    · simp only [List.foldl_cons]
      rw [hf2, hf1, hsub]
      simp only [combos, List.flatMap_cons]
      rw [List.take_append_eq_append_take, List.length_map, List.append_assoc]
    · simp only [List.foldl_cons]
      rw [he2, he1, hsub]
      simp only [combos, List.flatMap_cons]
      rw [List.take_append_eq_append_take, List.length_map,
        spSeq_append tot _ _ st.current_task, List.length_take, List.length_map,
        hmin, List.append_assoc]
    · simp only [List.foldl_cons]
      rw [hct2, hct1]
      simp only [List.length_cons]
      rw [Nat.succ_mul]
      have hlin : rest.length * locs.length = rest.length * locs.length := rfl
      generalize rest.length * locs.length = m
      omega

/-- C9. Discovery cancellation: with a monotone stop signal first observed
at the check for combination `k + 1`, `_mass_gen_thread` initiates lookups
for exactly the first `k` (category, location) combinations in loop order
and emits exactly those combinations' status/progress events —
`k` combinations' worth of progress (`2k` such events) when `k` does not
exceed the total number of combinations. -/
theorem discovery_cancellation :
    ∀ (cats locs : List String) (outs : String → String → GenOutcome) (k : Nat),
      (App.massGen k cats locs outs).fetched = (combos cats locs).take k ∧
      spEvents (App.massGen k cats locs outs).events =
        spSeq (cats.length * locs.length) 0 ((combos cats locs).take k) ∧
      (k ≤ cats.length * locs.length →
        ((App.massGen k cats locs outs).fetched.length = k ∧
         (spEvents (App.massGen k cats locs outs).events).length = 2 * k)) := by
  intro cats locs outs k
  have hInv : ((GenSt.init.checks = GenSt.init.current_task ∧
      GenSt.init.current_task ≤ k) ∨
      (k ≤ GenSt.init.checks ∧ GenSt.init.current_task = k)) := by
    left; exact ⟨rfl, Nat.zero_le k⟩
  obtain ⟨hf, he, _⟩ :=
    massGenFold_invariant k (cats.length * locs.length) locs outs cats
      GenSt.init hInv
  have hfet : (App.massGen k cats locs outs).fetched = (combos cats locs).take k := by
    unfold App.massGen
    simpa [GenSt.init] using hf
  have hev : spEvents (App.massGen k cats locs outs).events =
      spSeq (cats.length * locs.length) 0 ((combos cats locs).take k) := by
    unfold App.massGen
    simp only []
    rw [spEvents_append]
    have hdone : spEvents [GEvent.done_gen
        ((cats.foldl (fun s cat => innerLocs k (cats.length * locs.length) cat outs s locs)
          GenSt.init).total_found)] = [] := rfl
    rw [hdone, List.append_nil]
    simpa [GenSt.init] using he
  refine ⟨hfet, hev, fun hk => ⟨?_, ?_⟩⟩
  · rw [hfet, List.length_take, combos_length]
    omega
  · rw [hev, spSeq_length, List.length_take, combos_length]
    omega

/-- Witness for C9: stopping after 3 of 6 combinations fetches exactly the
first 3 and emits exactly their progress. -/
theorem discovery_cancellation_witness :
    (App.massGen 3 ["c1", "c2"] ["l1", "l2", "l3"]
        (fun _ _ => GenOutcome.netError)).fetched.length = 3 ∧
    (spEvents (App.massGen 3 ["c1", "c2"] ["l1", "l2", "l3"]
        (fun _ _ => GenOutcome.netError)).events).length = 2 * 3 :=
  (discovery_cancellation ["c1", "c2"] ["l1", "l2", "l3"]
    (fun _ _ => GenOutcome.netError) 3).2.2 (by decide)

end NorthScrape
